import Mathlib

/-!
Shallow embedding of the s3tonowhere benchmark tool (Go) for verifying its
natural-language specification.

Conventions of the embedding:
* Go `float64` arithmetic is modelled over `ℚ` (exact rational arithmetic);
  sizes (`uint64`) become `Nat`, status codes and `time.Duration`
  (int64 nanoseconds) become `Int`.
* A Go runtime panic (e.g. `slices.Max` on an empty slice, or gonum's
  `stat.Quantile` falling off the end of an empty slice) is modelled by
  `Option.none`; `log.Fatal` (process abort) is modelled explicitly.
* Channels are modelled as the list of values sent over them, in arrival
  order; each concurrent worker is modelled as a function from its inputs
  (including the outcome the storage service produces) to its effect.
-/

namespace S3ToNowhere

/-! ### Data model (main.go lines 27-51) -/

/-- Go struct `ChannelSample` (main.go:27-32): one measurement emitted per
retrieval. `duration` is Go `time.Duration`, i.e. int64 nanoseconds. -/
structure ChannelSample where
  size : Nat
  objectName : String
  statusCode : Int
  duration : Int
deriving Repr, DecidableEq

/-- Go `time.Duration.Seconds()`: nanoseconds divided by 1e9, as a float
(modelled exactly over ℚ). -/
def durationSeconds (d : Int) : ℚ := (d : ℚ) / 1000000000

/-- Go struct `StatsSummary` (main.go:43-51). -/
structure StatsSummary where
  Max : ℚ
  Mean : ℚ
  P99 : ℚ
  P95 : ℚ
  P90 : ℚ
  P50 : ℚ
  Unit : String
deriving Repr, DecidableEq

/-- The fields of Go struct `Result` (main.go:34-41) that the claims are
about: running totals and the retained sample history (`start`, `end` and
the derived overall `rate` are wall-clock data not modelled here). -/
structure Result where
  objects : Nat
  size : Nat
  samples : List ChannelSample
deriving Repr, DecidableEq

/-! ### Retrieval worker (main.go:54-81, `downloadS3Object`) -/

/-- The error response the minio client reports
(`minio.ToErrorResponse`): the fields `downloadS3Object` reads. -/
structure ErrResponse where
  statusCode : Int
  message : String
deriving Repr, DecidableEq

/-- What the storage service does for one `GetObject` + `io.Copy` pair:
either the open itself fails, or the copy reads `copied` bytes and then
either finishes cleanly (`readErr = none`) or fails mid-stream
(`readErr = some resp`; Go `io.Copy` still reports the bytes copied so
far). -/
inductive GetObjectResult where
  | openErr (resp : ErrResponse)
  | ok (copied : Nat) (readErr : Option ErrResponse)
deriving Repr, DecidableEq

/-- The observable effect of one dispatched task. -/
inductive TaskOutcome where
  /-- admission check failed: no retrieval performed, no sample sent -/
  | skipped
  /-- `log.Fatal` was reached: the whole process aborts -/
  | fatal (resp : ErrResponse)
  /-- exactly one sample was sent on the channel -/
  | emitted (s : ChannelSample)
deriving Repr, DecidableEq

/-- Model of `downloadS3Object` (main.go:54-81): opens the object; on an open error
it calls `log.Fatal` (process abort). Otherwise it drains the body into a
discard sink; a mid-stream read error overwrites the default status 200
with `resp.StatusCode` and keeps the partial byte count from `io.Copy`.
Exactly one `ChannelSample` is sent in the non-fatal cases. `dur` is the
measured wall-clock duration (`time.Since(start)`). -/
def downloadS3Object (get : GetObjectResult) (dur : Int) (key : String) :
    TaskOutcome :=
  match get with
  | .openErr resp => .fatal resp
  | .ok copied readErr =>
      let statusCode : Int :=
        match readErr with
        | none => 200
        | some resp => resp.statusCode
      .emitted ⟨copied, key, statusCode, dur⟩

/-! ### Dispatcher-side admission check and limit checks
(main.go:282-298, `walkBucketObjects`) -/

/-- The duration-limit test `config.LimitDuration > 0 &&
time.Since(maxSecondsStart).Seconds() >= float64(config.LimitDuration)`,
appearing both inside each dispatched goroutine (main.go:282) and at the
bottom of the enumeration loop (main.go:294). -/
def limitDurationReached (limitDuration : Int) (elapsed : ℚ) : Bool :=
  limitDuration > 0 && (limitDuration : ℚ) ≤ elapsed

/-- The object-limit test `config.LimitObjects > 0 && max_counter >=
config.LimitObjects` (main.go:290). -/
def limitObjectsReached (limitObjects : Int) (max_counter : Int) : Bool :=
  limitObjects > 0 && limitObjects ≤ max_counter

/-- The body of the goroutine spawned per key (main.go:279-288): if the
duration limit is already reached at the moment the task runs its check,
it only logs a warning and downloads nothing; otherwise it runs
`downloadS3Object`. `elapsed` is `time.Since(maxSecondsStart).Seconds()`
observed at the check. -/
def dispatchedTask (limitDuration : Int) (elapsed : ℚ)
    (get : GetObjectResult) (dur : Int) (key : String) : TaskOutcome :=
  if limitDurationReached limitDuration elapsed then .skipped
  else downloadS3Object get dur key

/-! ### Sample collector (main.go:84-119, `collectResult`) -/

/-- Model of `collectResult` (main.go:84-119): drains the sample channel; for each
received sample it appends it to `result.samples`, increments `count` and
adds the size to `total_size`; after the channel closes it stores the
final `count` and `total_size` into the result. The channel is modelled
as the list of samples received, in arrival order; the initial `Result`
is the zero value `Result{}` built in `cmd_run` (main.go:310). -/
def collectStep (st : Result) (sample : ChannelSample) : Result :=
  { st with
    samples := st.samples ++ [sample]
    objects := st.objects + 1
    size := st.size + sample.size }

/-- See `collectStep` for the loop body. -/
def collectResult (channel : List ChannelSample) : Result :=
  channel.foldl collectStep ⟨0, 0, []⟩

/-! ### Status histogram (main.go:125-131) -/

/-- One `status_map[sample.statusCode]++` step on the Go map, modelled as
an association list keyed by status code. -/
def incrStatus (m : List (Int × Nat)) (c : Int) : List (Int × Nat) :=
  match m with
  | [] => [(c, 1)]
  | (k, n) :: rest =>
      if k = c then (k, n + 1) :: rest else (k, n) :: incrStatus rest c

/-- Reading `status_map[c]` (a missing key reads as 0 in Go). -/
def lookupStatus (m : List (Int × Nat)) (c : Int) : Nat :=
  match m with
  | [] => 0
  | (k, n) :: rest => if k = c then n else lookupStatus rest c

/-- The total of all counts stored in the histogram. -/
def sumStatus (m : List (Int × Nat)) : Nat := (m.map Prod.snd).sum

/-- The `status_map` accumulated by the loop in `summariseDownloads`
(main.go:125-131). -/
def statusMap (samples : List ChannelSample) : List (Int × Nat) :=
  samples.foldl (fun m s => incrStatus m s.statusCode) []

/-! ### Statistics summariser (main.go:122-170, `summariseDownloads`)

The Go code builds the size and rate sample slices, sorts each with
`sort.Float64s`, and then computes `slices.Max`, `stat.Mean` and
`stat.Quantile(p, stat.Empirical, ...)` on the sorted slice (the slice is
sorted in place at main.go:133/151 before any statistic is taken,
including the `log.Debug` lines). -/

/-- Go `sort.Float64s`: sorts the slice ascending (the library does not
specify the algorithm, only the ascending result, which is unique for the
total antisymmetric order on ℚ; insertion sort is used here because it is
structurally recursive). -/
def sortFloat64s (l : List ℚ) : List ℚ := l.insertionSort (· ≤ ·)

/-- Go `slices.Max` (stdlib): panics on an empty slice (modelled as
`none`); otherwise folds `max` over the elements. -/
def slicesMax (l : List ℚ) : Option ℚ :=
  match l with
  | [] => none
  | a :: rest => some (rest.foldl max a)

/-- gonum `stat.Mean(x, nil)`: `floats.Sum(x) / len(x)` (on the empty
slice the Go value is NaN = 0/0; over ℚ this is the junk value 0, which
is never reached by `summariseDownloads` because `slices.Max` panics
first). -/
def statMean (l : List ℚ) : ℚ := l.sum / l.length

/-- The loop of gonum's `empiricalQuantile`: walk the sorted slice,
incrementing `cumsum` by 1 per element (nil weights), returning the first
element at which `cumsum >= fidx`. Falling off the end is a panic in Go
(`none` here); gonum reaches it exactly on an empty slice. -/
def empiricalQuantileLoop (fidx : ℚ) (cumsum : ℚ) :
    List ℚ → Option ℚ
  | [] => none
  | a :: rest =>
      if fidx ≤ cumsum + 1 then some a
      else empiricalQuantileLoop fidx (cumsum + 1) rest

/-- gonum `stat.Quantile(p, stat.Empirical, x, nil)` for sorted `x`:
`fidx = p * len(x)`, then the cumulative-weight walk. (gonum also panics
when `x` is not sorted; every call site here sorts first.) -/
def statQuantile (p : ℚ) (x : List ℚ) : Option ℚ :=
  empiricalQuantileLoop (p * x.length) 0 x

/-- The `StatsSummary` literal built at main.go:141-149 and 159-167 from
one (already sorted) sample slice: `none` when any of the statistic calls
panics (empty slice). -/
def buildSummary (sorted : List ℚ) (unit : String) : Option StatsSummary := do
  let mx ← slicesMax sorted
  let q99 ← statQuantile 0.99 sorted
  let q95 ← statQuantile 0.95 sorted
  let q90 ← statQuantile 0.90 sorted
  let q50 ← statQuantile 0.50 sorted
  pure ⟨mx, statMean sorted, q99, q95, q90, q50, unit⟩

/-- Model of `summariseDownloads` (main.go:122-170): builds the per-sample size and
rate (`size / duration.Seconds()`) slices and the status histogram, sorts
each slice, and returns the two summaries plus the histogram; `none`
models the panic the statistics calls raise on an empty history. -/
def summariseDownloads (samples : List ChannelSample) :
    Option (StatsSummary × StatsSummary × List (Int × Nat)) :=
  let samples_size := samples.map (fun s => (s.size : ℚ))
  let samples_rate :=
    samples.map (fun s => (s.size : ℚ) / durationSeconds s.duration)
  let status_map := statusMap samples
  do
    let size_stats ← buildSummary (sortFloat64s samples_size) "B"
    let rate_stats ← buildSummary (sortFloat64s samples_rate) "B/s"
    pure (size_stats, rate_stats, status_map)

/-! ### Enumeration and dispatch (main.go:268-304, `walkBucketObjects`)
and the run driver (main.go:307-326, `cmd_run`) -/

/-- One item produced by `s3Client.ListObjects`: either an error entry
(`object.Err != nil`) or a key; `elapsedAfter` is the value
`time.Since(maxSecondsStart).Seconds()` observed at the bottom-of-loop
duration check for this iteration. -/
structure ListEntry where
  err : Option String
  key : String
  elapsedAfter : ℚ
deriving Repr, DecidableEq

/-- What the enumeration loop of `walkBucketObjects` did: which keys got a
goroutine spawned for them, and whether control reached the
`wg.Wait()` barrier at main.go:302 (an `object.Err` entry returns from
the function at main.go:275 before that barrier). -/
structure WalkResult where
  dispatched : List String
  waited : Bool
deriving Repr, DecidableEq

/-- The `for object := range s3Client.ListObjects(...)` loop
(main.go:272-299) followed by `wg.Wait()` (main.go:302): an error entry
logs it and returns immediately (skipping the barrier: `waited = false`);
otherwise a goroutine is spawned for the key, `max_counter` is
incremented, and the two limit checks may `break` out of the loop (after
which the barrier is reached). -/
def walkLoop (limitObjects limitDuration : Int) :
    List ListEntry → Int → WalkResult
  | [], _ => ⟨[], true⟩
  | e :: rest, max_counter =>
      match e.err with
      | some _ => ⟨[], false⟩
      | none =>
          let mc := max_counter + 1
          if limitObjectsReached limitObjects mc then ⟨[e.key], true⟩
          else if limitDurationReached limitDuration e.elapsedAfter then
            ⟨[e.key], true⟩
          else
            let r := walkLoop limitObjects limitDuration rest mc
            ⟨e.key :: r.dispatched, r.waited⟩

/-- Model of the `walkBucketObjects` enumeration phase, with `max_counter = 0`
initially (main.go:270). -/
def walkBucketObjects (limitObjects limitDuration : Int)
    (listing : List ListEntry) : WalkResult :=
  walkLoop limitObjects limitDuration listing 0

/-- After `walkBucketObjects` returns, `cmd_run` (main.go:307-326)
unconditionally closes the sample channel, joins the collector and calls
`displayResults`, which emits the JSON report unless `summariseDownloads`
panics. `true` = a final report is printed for the collected samples. -/
def runEmitsReport (collected : List ChannelSample) : Bool :=
  (summariseDownloads collected).isSome

/-! ### Configuration (unnamed config source, `setConfigInt` /
`getConfig`) -/

/-- Model of `setConfigInt` (config source lines 76-87): the integer command-line
value is clamped — every value below 1 is stored as -1. -/
def setConfigInt (value : Int) : Int := if value < 1 then -1 else value

/-- The two limit fields of `Config` as produced by `getConfig` (config
source lines 91-130): `setConfigInt` is applied unconditionally to the
`limit-duration` and `limit-objects` command-line values. -/
structure ConfigLimits where
  LimitDuration : Int
  LimitObjects : Int
deriving Repr, DecidableEq

/-- The limit fields `getConfig` puts into the `Config` it returns. -/
def getConfigLimits (cmdLimitDuration cmdLimitObjects : Int) :
    ConfigLimits :=
  ⟨setConfigInt cmdLimitDuration, setConfigInt cmdLimitObjects⟩

/-! ## Helper lemmas -/

theorem collect_foldl (ch : List ChannelSample) (st : Result) :
    ch.foldl collectStep st =
      ⟨st.objects + ch.length,
       st.size + (ch.map ChannelSample.size).sum,
       st.samples ++ ch⟩ := by
  induction ch generalizing st with
  | nil => simp
  | cons a t ih =>
      rw [List.foldl_cons, ih]
      simp only [collectStep, Result.mk.injEq, List.length_cons,
        List.map_cons, List.sum_cons]
      refine ⟨by omega, by omega, by simp⟩

/-- The collector is an exact fold: it retains every received sample in
arrival order and counts and sums exactly once per sample. -/
theorem collectResult_eq (ch : List ChannelSample) :
    collectResult ch = ⟨ch.length, (ch.map ChannelSample.size).sum, ch⟩ := by
  simpa using collect_foldl ch ⟨0, 0, []⟩

theorem quantileLoop_mem (l : List ℚ) (fidx : ℚ) :
    ∀ cumsum v : ℚ, empiricalQuantileLoop fidx cumsum l = some v → v ∈ l := by
  induction l with
  | nil => intro c v h; simp [empiricalQuantileLoop] at h
  | cons a rest ih =>
      intro c v h
      rw [empiricalQuantileLoop] at h
      split at h
      · injection h with h
        subst h
        exact List.mem_cons_self a rest
      · exact List.mem_cons_of_mem a (ih (c + 1) v h)

theorem quantileLoop_isSome (l : List ℚ) (fidx : ℚ) :
    ∀ cumsum : ℚ, l ≠ [] → fidx ≤ cumsum + l.length →
      ∃ v, empiricalQuantileLoop fidx cumsum l = some v := by
  induction l with
  | nil => intro c h _; exact absurd rfl h
  | cons a rest ih =>
      intro c _ hle
      rw [empiricalQuantileLoop]
      split
      · exact ⟨a, rfl⟩
      · rename_i hin
        push_cast [List.length_cons] at hle
        cases rest with
        | nil =>
            exfalso
            apply hin
            simp only [List.length_nil, Nat.cast_zero] at hle
            linarith
        | cons b t =>
            apply ih (c + 1) (by simp)
            push_cast [List.length_cons] at hle ⊢
            linarith

theorem quantileLoop_mono (l : List ℚ) :
    ∀ cumsum fidx1 fidx2 v1 v2 : ℚ, l.Sorted (· ≤ ·) → fidx1 ≤ fidx2 →
      empiricalQuantileLoop fidx1 cumsum l = some v1 →
      empiricalQuantileLoop fidx2 cumsum l = some v2 → v1 ≤ v2 := by
  induction l with
  | nil => intro c f1 f2 v1 v2 _ _ h1 _; simp [empiricalQuantileLoop] at h1
  | cons a rest ih =>
      intro c f1 f2 v1 v2 hs hf h1 h2
      rw [empiricalQuantileLoop] at h1 h2
      by_cases ha1 : f1 ≤ c + 1
      · rw [if_pos ha1] at h1
        injection h1 with h1
        subst h1
        by_cases ha2 : f2 ≤ c + 1
        · rw [if_pos ha2] at h2
          injection h2 with h2
          subst h2
          exact le_refl _
        · rw [if_neg ha2] at h2
          exact (List.sorted_cons.mp hs).1 v2
            (quantileLoop_mem rest f2 (c + 1) v2 h2)
      · have ha2 : ¬ f2 ≤ c + 1 := fun h => ha1 (le_trans hf h)
        rw [if_neg ha1] at h1
        rw [if_neg ha2] at h2
        exact ih (c + 1) f1 f2 v1 v2 (List.sorted_cons.mp hs).2 hf h1 h2

theorem statQuantile_exists (p : ℚ) (x : List ℚ) (hne : x ≠ [])
    (hp : p ≤ 1) : ∃ v, statQuantile p x = some v ∧ v ∈ x := by
  have hlen : (0 : ℚ) ≤ (x.length : ℚ) := by positivity
  have hfidx : p * (x.length : ℚ) ≤ 0 + (x.length : ℚ) := by
    rw [zero_add]
    exact mul_le_of_le_one_left hlen hp
  obtain ⟨v, hv⟩ := quantileLoop_isSome x (p * x.length) 0 hne hfidx
  exact ⟨v, hv, quantileLoop_mem x _ 0 v hv⟩

theorem statQuantile_mono (x : List ℚ) (p1 p2 v1 v2 : ℚ)
    (hs : x.Sorted (· ≤ ·)) (hp : p1 ≤ p2)
    (h1 : statQuantile p1 x = some v1) (h2 : statQuantile p2 x = some v2) :
    v1 ≤ v2 :=
  quantileLoop_mono x 0 _ _ v1 v2 hs
    (mul_le_mul_of_nonneg_right hp (by positivity)) h1 h2

theorem foldl_max_ge (l : List ℚ) :
    ∀ a v : ℚ, v ∈ a :: l → v ≤ l.foldl max a := by
  induction l with
  | nil =>
      intro a v hv
      simp only [List.mem_singleton] at hv
      simp [hv]
  | cons b t ih =>
      intro a v hv
      rw [List.foldl_cons]
      have hhead : max a b ≤ t.foldl max (max a b) :=
        ih (max a b) (max a b) (List.mem_cons_self _ _)
      rcases List.mem_cons.mp hv with h1 | hv'
      · rw [h1]
        exact le_trans (le_max_left a b) hhead
      rcases List.mem_cons.mp hv' with h2 | hv''
      · rw [h2]
        exact le_trans (le_max_right a b) hhead
      · exact ih (max a b) v (List.mem_cons_of_mem _ hv'')

theorem slicesMax_spec (l : List ℚ) (hne : l ≠ []) :
    ∃ m, slicesMax l = some m ∧ ∀ v ∈ l, v ≤ m := by
  cases l with
  | nil => exact absurd rfl hne
  | cons a rest =>
      exact ⟨rest.foldl max a, rfl, fun v hv => foldl_max_ge rest a v hv⟩

theorem sortFloat64s_perm (l : List ℚ) : List.Perm (sortFloat64s l) l :=
  List.perm_insertionSort _ l

theorem sortFloat64s_sorted (l : List ℚ) :
    (sortFloat64s l).Sorted (· ≤ ·) :=
  List.sorted_insertionSort _ l

theorem sortFloat64s_eq_of_perm (l1 l2 : List ℚ) (h : List.Perm l1 l2) :
    sortFloat64s l1 = sortFloat64s l2 :=
  List.eq_of_perm_of_sorted
    ((sortFloat64s_perm l1).trans (h.trans (sortFloat64s_perm l2).symm))
    (sortFloat64s_sorted l1) (sortFloat64s_sorted l2)

theorem sortFloat64s_ne_nil (l : List ℚ) (hne : l ≠ []) :
    sortFloat64s l ≠ [] := by
  intro h
  have hlen := (sortFloat64s_perm l).length_eq
  rw [h] at hlen
  simp only [List.length_nil] at hlen
  exact hne (List.length_eq_zero.mp hlen.symm)

/-- Master lemma for `buildSummary` applied, as in the program, to the
sorted version of a non-empty sample slice: it succeeds, its percentiles
are ordered below the maximum, and its mean is the arithmetic mean of the
unsorted slice. -/
theorem buildSummary_spec (l : List ℚ) (hne : l ≠ []) (u : String) :
    ∃ s : StatsSummary,
      buildSummary (sortFloat64s l) u = some s ∧
      s.P50 ≤ s.P90 ∧ s.P90 ≤ s.P95 ∧ s.P95 ≤ s.P99 ∧ s.P99 ≤ s.Max ∧
      s.Mean = l.sum / l.length ∧ s.Unit = u := by
  have hperm := sortFloat64s_perm l
  have hsne : sortFloat64s l ≠ [] := sortFloat64s_ne_nil l hne
  have hsorted : (sortFloat64s l).Sorted (· ≤ ·) := sortFloat64s_sorted l
  obtain ⟨mx, hmx, hmx_ge⟩ := slicesMax_spec _ hsne
  obtain ⟨q99, h99, h99mem⟩ := statQuantile_exists 0.99 _ hsne (by norm_num)
  obtain ⟨q95, h95, -⟩ := statQuantile_exists 0.95 _ hsne (by norm_num)
  obtain ⟨q90, h90, -⟩ := statQuantile_exists 0.90 _ hsne (by norm_num)
  obtain ⟨q50, h50, -⟩ := statQuantile_exists 0.50 _ hsne (by norm_num)
  refine ⟨⟨mx, statMean (sortFloat64s l), q99, q95, q90, q50, u⟩,
    ?_, ?_, ?_, ?_, ?_, ?_, rfl⟩
  · simp [buildSummary, hmx, h99, h95, h90, h50]
  · exact statQuantile_mono _ _ _ _ _ hsorted (by norm_num) h50 h90
  · exact statQuantile_mono _ _ _ _ _ hsorted (by norm_num) h90 h95
  · exact statQuantile_mono _ _ _ _ _ hsorted (by norm_num) h95 h99
  · exact hmx_ge q99 h99mem
  · simp only [statMean]
    rw [hperm.sum_eq, hperm.length_eq]

/-- On a non-empty history `summariseDownloads` succeeds and returns the
two summaries with ordered percentiles and exact means, together with the
status histogram. -/
theorem summariseDownloads_spec (samples : List ChannelSample)
    (hne : samples ≠ []) :
    ∃ ss rs : StatsSummary,
      summariseDownloads samples = some (ss, rs, statusMap samples) ∧
      (ss.P50 ≤ ss.P90 ∧ ss.P90 ≤ ss.P95 ∧ ss.P95 ≤ ss.P99 ∧
        ss.P99 ≤ ss.Max) ∧
      (rs.P50 ≤ rs.P90 ∧ rs.P90 ≤ rs.P95 ∧ rs.P95 ≤ rs.P99 ∧
        rs.P99 ≤ rs.Max) ∧
      ss.Mean = (samples.map (fun s => (s.size : ℚ))).sum /
        samples.length ∧
      rs.Mean = (samples.map
        (fun s => (s.size : ℚ) / durationSeconds s.duration)).sum /
        samples.length ∧
      ss.Unit = "B" ∧ rs.Unit = "B/s" := by
  have hsz : samples.map (fun s => (s.size : ℚ)) ≠ [] := by
    simpa using hne
  have hrt : samples.map
      (fun s => (s.size : ℚ) / durationSeconds s.duration) ≠ [] := by
    simpa using hne
  obtain ⟨ss, hss, hss1, hss2, hss3, hss4, hssm, hssu⟩ :=
    buildSummary_spec _ hsz "B"
  obtain ⟨rs, hrs, hrs1, hrs2, hrs3, hrs4, hrsm, hrsu⟩ :=
    buildSummary_spec _ hrt "B/s"
  refine ⟨ss, rs, ?_, ⟨hss1, hss2, hss3, hss4⟩, ⟨hrs1, hrs2, hrs3, hrs4⟩,
    by simpa using hssm, by simpa using hrsm, hssu, hrsu⟩
  simp only [summariseDownloads]
  rw [hss, hrs]
  rfl

/-! ## Claim theorems -/

/-- C3: at stream closure the length of the retained sample history equals
the running count (`result.objects`); the collector appends exactly one
history entry and performs exactly one count increment per received
sample, so the history is the received stream itself and the count is its
length. -/
theorem collector_history_length_eq_count (ch : List ChannelSample) :
    (collectResult ch).samples.length = (collectResult ch).objects ∧
    (collectResult ch).samples = ch ∧
    (collectResult ch).objects = ch.length := by
  simp [collectResult_eq]

/-- C5: a mid-stream read failure does not abort the run: the worker emits
exactly one sample carrying the error response's status code and the
partial byte count `io.Copy` reported; a worker whose read succeeds emits
exactly one sample with status 200. -/
theorem worker_sample_status (copied : Nat) (resp : ErrResponse)
    (dur : Int) (key : String) :
    downloadS3Object (.ok copied (some resp)) dur key =
      .emitted ⟨copied, key, resp.statusCode, dur⟩ ∧
    downloadS3Object (.ok copied none) dur key =
      .emitted ⟨copied, key, 200, dur⟩ :=
  ⟨rfl, rfl⟩

/-- C6: when a positive duration limit has already been reached (or
exceeded) at the moment a dispatched task runs its admission check, the
task is skipped: no retrieval is performed and no sample is produced. -/
theorem task_skipped_when_duration_exceeded (limitDuration : Int)
    (elapsed : ℚ) (get : GetObjectResult) (dur : Int) (key : String)
    (hpos : 0 < limitDuration) (hex : (limitDuration : ℚ) ≤ elapsed) :
    dispatchedTask limitDuration elapsed get dur key = .skipped := by
  simp [dispatchedTask, limitDurationReached, hpos, hex]

theorem task_skipped_when_duration_exceeded_witness :
    dispatchedTask 5 6 (.ok 3 none) 1 "k" = .skipped :=
  task_skipped_when_duration_exceeded 5 6 (.ok 3 none) 1 "k"
    (by norm_num) (by norm_num)

/-- C10: `getConfig` never produces limit fields equal to zero:
`setConfigInt` maps every command-line value below 1 (including 0) to -1,
and the dispatcher's strictly-positive checks treat -1 as unlimited (both
limit tests are false for every counter value and every elapsed time). -/
theorem config_limits_never_zero (v w : Int) :
    (getConfigLimits v w).LimitDuration ≠ 0 ∧
    (getConfigLimits v w).LimitObjects ≠ 0 ∧
    (v < 1 → setConfigInt v = -1) ∧
    (∀ c : Int, limitObjectsReached (setConfigInt 0) c = false) ∧
    (∀ e : ℚ, limitDurationReached (setConfigInt 0) e = false) := by
  refine ⟨?_, ?_, ?_, ?_, ?_⟩
  · simp only [getConfigLimits, setConfigInt]
    split <;> omega
  · simp only [getConfigLimits, setConfigInt]
    split <;> omega
  · intro h
    simp [setConfigInt, h]
  · intro c
    simp [setConfigInt, limitObjectsReached]
  · intro e
    simp [setConfigInt, limitDurationReached]

theorem config_limits_never_zero_witness : setConfigInt 0 = -1 :=
  (config_limits_never_zero 0 0).2.2.1 (by norm_num)

/-- C1: the failing input is the empty history (empty bucket). The
running totals are indeed zero, but `summariseDownloads` does not return
all-zero statistics: it panics (`slices.Max` and `stat.Quantile` on an
empty slice), modelled by `none`, so the run aborts instead of reaching a
reported state. -/
theorem empty_history_summarise_panics :
    (collectResult []).objects = 0 ∧
    (collectResult []).size = 0 ∧
    summariseDownloads (collectResult []).samples = none ∧
    runEmitsReport [] = false := by
  refine ⟨rfl, rfl, rfl, rfl⟩

/-- C2 counterexample: take a listing that yields one good key (whose
worker samples 10 bytes with status 200) followed by an error entry, with
no limits configured. The claim says the run is aborted as fatal with the
dispatched worker drained (`waited = true`) and no final report; in fact
`walkBucketObjects` returns without reaching the `wg.Wait` barrier and
`cmd_run` still emits a report for the collected sample. -/
theorem listing_error_abort_counterexample :
    ¬ ((walkBucketObjects (-1) (-1)
          [⟨none, "a", 0⟩, ⟨some "listing failed", "", 0⟩]).waited = true ∧
       runEmitsReport [⟨10, "a", 200, 1000000000⟩] = false) := by
  decide

/-- C2 amended: a listing error stops enumeration immediately (nothing
further is dispatched) and makes `walkBucketObjects` return early,
skipping the `wg.Wait` barrier, but it is not fatal: the process goes on
to close the channel and emit the final report, which succeeds whenever
at least one sample was collected. -/
theorem listing_error_returns_early (limitObjects limitDuration : Int)
    (e : ListEntry) (rest : List ListEntry) (mc : Int) (msg : String)
    (herr : e.err = some msg) :
    walkLoop limitObjects limitDuration (e :: rest) mc = ⟨[], false⟩ ∧
    ∀ collected : List ChannelSample, collected ≠ [] →
      runEmitsReport collected = true := by
  constructor
  · simp [walkLoop, herr]
  · intro collected hc
    obtain ⟨ss, rs, hsum, -⟩ := summariseDownloads_spec collected hc
    simp [runEmitsReport, hsum]

theorem listing_error_returns_early_witness :
    walkLoop (-1) (-1) [⟨some "boom", "", 0⟩] 0 = ⟨[], false⟩ ∧
    runEmitsReport [⟨10, "a", 200, 1000000000⟩] = true := by
  obtain ⟨h1, h2⟩ :=
    listing_error_returns_early (-1) (-1) ⟨some "boom", "", 0⟩ [] 0 "boom" rfl
  exact ⟨h1, h2 _ (by decide)⟩

/-- C8: for every non-empty history the summariser succeeds and each of
the two summaries satisfies p50 ≤ p90 ≤ p95 ≤ p99 ≤ max, with the mean
equal to the exact arithmetic mean of the underlying values (sizes,
respectively per-sample rates). -/
theorem summary_percentiles_ordered (samples : List ChannelSample)
    (hne : samples ≠ []) :
    ∃ ss rs : StatsSummary, ∃ hist,
      summariseDownloads samples = some (ss, rs, hist) ∧
      (ss.P50 ≤ ss.P90 ∧ ss.P90 ≤ ss.P95 ∧ ss.P95 ≤ ss.P99 ∧
        ss.P99 ≤ ss.Max) ∧
      (rs.P50 ≤ rs.P90 ∧ rs.P90 ≤ rs.P95 ∧ rs.P95 ≤ rs.P99 ∧
        rs.P99 ≤ rs.Max) ∧
      ss.Mean = (samples.map (fun s => (s.size : ℚ))).sum /
        samples.length ∧
      rs.Mean = (samples.map
        (fun s => (s.size : ℚ) / durationSeconds s.duration)).sum /
        samples.length := by
  obtain ⟨ss, rs, hsum, hss, hrs, hm1, hm2, -, -⟩ :=
    summariseDownloads_spec samples hne
  exact ⟨ss, rs, statusMap samples, hsum, hss, hrs, hm1, hm2⟩

theorem summary_percentiles_ordered_witness :
    ∃ ss rs : StatsSummary, ∃ hist,
      summariseDownloads [⟨10, "a", 200, 1000000000⟩] =
        some (ss, rs, hist) ∧
      (ss.P50 ≤ ss.P90 ∧ ss.P90 ≤ ss.P95 ∧ ss.P95 ≤ ss.P99 ∧
        ss.P99 ≤ ss.Max) ∧
      (rs.P50 ≤ rs.P90 ∧ rs.P90 ≤ rs.P95 ∧ rs.P95 ≤ rs.P99 ∧
        rs.P99 ≤ rs.Max) ∧
      ss.Mean = ([⟨10, "a", 200, 1000000000⟩].map
        (fun s : ChannelSample => (s.size : ℚ))).sum / 1 ∧
      rs.Mean = ([⟨10, "a", 200, 1000000000⟩].map
        (fun s : ChannelSample =>
          (s.size : ℚ) / durationSeconds s.duration)).sum / 1 :=
  summary_percentiles_ordered [⟨10, "a", 200, 1000000000⟩] (by decide)

/-- C7: the summariser is order-invariant: permuting the history yields
the same pair of `StatsSummary` values (percentiles are taken from the
sorted copy, which is identical for permuted inputs). -/
theorem summarise_order_invariant (s1 s2 : List ChannelSample)
    (hperm : List.Perm s1 s2) :
    (summariseDownloads s1).map (fun r => (r.1, r.2.1)) =
    (summariseDownloads s2).map (fun r => (r.1, r.2.1)) := by
  have hsz : sortFloat64s (s1.map fun s => (s.size : ℚ)) =
      sortFloat64s (s2.map fun s => (s.size : ℚ)) :=
    sortFloat64s_eq_of_perm _ _ (hperm.map _)
  have hrt : sortFloat64s
        (s1.map fun s => (s.size : ℚ) / durationSeconds s.duration) =
      sortFloat64s
        (s2.map fun s => (s.size : ℚ) / durationSeconds s.duration) :=
    sortFloat64s_eq_of_perm _ _ (hperm.map _)
  simp only [summariseDownloads]
  rw [hsz, hrt]
  cases hA : buildSummary
      (sortFloat64s (s2.map fun s => (s.size : ℚ))) "B" with
  | none => rfl
  | some ss =>
      cases hB : buildSummary (sortFloat64s
          (s2.map fun s =>
            (s.size : ℚ) / durationSeconds s.duration)) "B/s" with
      | none => rfl
      | some rs => rfl

theorem summarise_order_invariant_witness :
    (summariseDownloads [⟨10, "a", 200, 1000000000⟩,
        ⟨20, "b", 500, 2000000000⟩]).map (fun r => (r.1, r.2.1)) =
    (summariseDownloads [⟨20, "b", 500, 2000000000⟩,
        ⟨10, "a", 200, 1000000000⟩]).map (fun r => (r.1, r.2.1)) :=
  summarise_order_invariant _ _ (by decide)

theorem statQuantile_singleton (p x : ℚ) (hp : p ≤ 1) :
    statQuantile p [x] = some x := by
  simp only [statQuantile, empiricalQuantileLoop, List.length_cons,
    List.length_nil, Nat.cast_zero, Nat.cast_one, Nat.cast_ofNat,
    Nat.zero_add, zero_add]
  rw [if_pos (by linarith [mul_one p])]

/-- C9: a single-sample history returns that sample's size for every size
percentile and its rate for every rate percentile, each equal to the
corresponding maximum and mean; the histogram holds that sample's status
once. -/
theorem single_sample_summary (sz : Nat) (key : String) (code d : Int) :
    summariseDownloads [⟨sz, key, code, d⟩] =
      some (⟨(sz : ℚ), (sz : ℚ), (sz : ℚ), (sz : ℚ), (sz : ℚ), (sz : ℚ),
              "B"⟩,
            ⟨(sz : ℚ) / durationSeconds d, (sz : ℚ) / durationSeconds d,
              (sz : ℚ) / durationSeconds d, (sz : ℚ) / durationSeconds d,
              (sz : ℚ) / durationSeconds d, (sz : ℚ) / durationSeconds d,
              "B/s"⟩,
            [(code, 1)]) := by
  have hsort : ∀ a : ℚ, sortFloat64s [a] = [a] := fun a => rfl
  simp only [summariseDownloads, List.map_cons, List.map_nil, statusMap,
    List.foldl_cons, List.foldl_nil, incrStatus, hsort]
  simp [buildSummary, slicesMax, statMean,
    statQuantile_singleton _ _ (by norm_num : (0.99 : ℚ) ≤ 1),
    statQuantile_singleton _ _ (by norm_num : (0.95 : ℚ) ≤ 1),
    statQuantile_singleton _ _ (by norm_num : (0.90 : ℚ) ≤ 1),
    statQuantile_singleton _ _ (by norm_num : (0.50 : ℚ) ≤ 1)]

theorem lookupStatus_incr_self (m : List (Int × Nat)) (c : Int) :
    lookupStatus (incrStatus m c) c = lookupStatus m c + 1 := by
  induction m with
  | nil => simp [incrStatus, lookupStatus]
  | cons kv rest ih =>
      obtain ⟨k, n⟩ := kv
      by_cases h : k = c
      · simp [incrStatus, lookupStatus, h]
      · simp [incrStatus, lookupStatus, h, ih]

theorem lookupStatus_incr_ne (m : List (Int × Nat)) (c c' : Int)
    (h : c' ≠ c) :
    lookupStatus (incrStatus m c) c' = lookupStatus m c' := by
  induction m with
  | nil =>
      have h' : c ≠ c' := Ne.symm h
      simp [incrStatus, lookupStatus, h']
  | cons kv rest ih =>
      obtain ⟨k, n⟩ := kv
      by_cases hk : k = c
      · subst hk
        have h' : k ≠ c' := Ne.symm h
        simp [incrStatus, lookupStatus, h']
      · by_cases hk' : k = c'
        · simp [incrStatus, lookupStatus, hk, hk', h]
        · simp [incrStatus, lookupStatus, hk, hk', ih]

theorem sumStatus_incr (m : List (Int × Nat)) (c : Int) :
    sumStatus (incrStatus m c) = sumStatus m + 1 := by
  induction m with
  | nil => simp [incrStatus, sumStatus]
  | cons kv rest ih =>
      obtain ⟨k, n⟩ := kv
      by_cases h : k = c
      · simp only [incrStatus, if_pos h, sumStatus, List.map_cons,
          List.sum_cons]
        omega
      · simp only [incrStatus, if_neg h, sumStatus, List.map_cons,
          List.sum_cons] at ih ⊢
        omega

theorem statusMapLoop_lookup (samples : List ChannelSample) :
    ∀ (m : List (Int × Nat)) (c : Int),
      lookupStatus
          (samples.foldl (fun m s => incrStatus m s.statusCode) m) c =
        lookupStatus m c +
          samples.countP (fun s => decide (s.statusCode = c)) := by
  induction samples with
  | nil => simp
  | cons a t ih =>
      intro m c
      rw [List.foldl_cons, ih]
      by_cases h : a.statusCode = c
      · rw [List.countP_cons_of_pos _ _ (by simpa using h), h,
          lookupStatus_incr_self]
        omega
      · rw [List.countP_cons_of_neg _ _ (by simpa using h),
          lookupStatus_incr_ne m a.statusCode c (fun hh => h hh.symm)]

theorem statusMapLoop_sum (samples : List ChannelSample) :
    ∀ m : List (Int × Nat),
      sumStatus (samples.foldl (fun m s => incrStatus m s.statusCode) m) =
        sumStatus m + samples.length := by
  induction samples with
  | nil => simp
  | cons a t ih =>
      intro m
      rw [List.foldl_cons, ih, sumStatus_incr, List.length_cons]
      omega

/-- C4: the histogram built by `summariseDownloads` maps each status code
to its number of occurrences in the history, and the total of all
histogram counts equals the number of samples. -/
theorem status_histogram_correct (samples : List ChannelSample)
    (c : Int) :
    lookupStatus (statusMap samples) c =
      samples.countP (fun s => decide (s.statusCode = c)) ∧
    sumStatus (statusMap samples) = samples.length := by
  constructor
  · simpa [statusMap, lookupStatus] using statusMapLoop_lookup samples [] c
  · simpa [statusMap, sumStatus] using statusMapLoop_sum samples []

end S3ToNowhere
